import Mathlib

/-!
Verification development for the reactive observation engine and its
asynchronous update scheduler (observer/index.js, observer/array.js,
observer/traverse.js, and the next-tick scheduler module).

The JavaScript source is shallowly embedded: module-level mutable state
becomes explicit state records, and the functions of the source become
state-passing Lean functions.  Unbounded recursion through the mutable
heap (observe / traverse walking possibly-cyclic object graphs) is made
total with an explicit fuel parameter; a result of `none` means the fuel
ran out (or the JavaScript would have thrown), and every theorem is about
`some` results, which coincide with what the JavaScript computes.
-/

namespace VueCore

/- ================================================================
   Part 1: the next-tick scheduler (src module next-tick:
   `callbacks`, `pending`, `flushCallbacks`, `nextTick`).
   ================================================================ -/

/-- A leaf callback handed to `nextTick`: it has an identity and may throw
when invoked.  (`throws = true` models a callback body that raises.) -/
structure Cb0 where
  id : Nat
  throws : Bool
deriving DecidableEq, Repr

/-- A callback handed to `nextTick` that, while running, may itself call
`nextTick` on further (leaf) callbacks — e.g. a subscriber that schedules
more work during the flush. -/
structure Cb where
  main : Cb0
  enq : List Cb0
deriving DecidableEq, Repr

/-- The module-level state of the next-tick scheduler: the live `callbacks`
queue, the `pending` flag, the number of times `timerFunc()` has been
invoked (i.e. how many flushes have been scheduled), and two logs recording
what the flushes did: `ran` holds the ids of callbacks that completed
normally, `errorsHandled` the ids whose invocation threw and was caught by
the wrapper and reported via `handleError`. -/
structure NTState where
  callbacks : List Cb
  pending : Bool
  scheduled : Nat
  ran : List Nat
  errorsHandled : List Nat
deriving DecidableEq, Repr

/-- `nextTick(cb)`: push the wrapper onto `callbacks`; if `pending` is
false, set it and invoke `timerFunc()` (counted in `scheduled`). -/
def nextTick (c : Cb) (s : NTState) : NTState :=
  let s := { s with callbacks := s.callbacks ++ [c] }
  if s.pending then s
  else { s with pending := true, scheduled := s.scheduled + 1 }

/-- Lift a leaf callback to a `Cb` that enqueues nothing. -/
def liftCb (c : Cb0) : Cb := ⟨c, []⟩

/-- Run one copied wrapper during a flush.  The body performs its
`nextTick` calls; then, if the body throws, the wrapper catches the error
and reports it (`errorsHandled`, modelling the try/catch around `cb.call`
whose handler is `handleError`); otherwise the callback completes (`ran`). -/
def runOne (s : NTState) (c : Cb) : NTState :=
  let s := c.enq.foldl (fun s d => nextTick (liftCb d) s) s
  if c.main.throws then { s with errorsHandled := s.errorsHandled ++ [c.main.id] }
  else { s with ran := s.ran ++ [c.main.id] }

/-- `flushCallbacks()`: set `pending` to false, copy the queue, clear the
live queue, then invoke each copied wrapper in order. -/
def flushCallbacks (s : NTState) : NTState :=
  let s := { s with pending := false }
  let copies := s.callbacks
  let s := { s with callbacks := [] }
  copies.foldl runOne s

/-- The scheduler's initial module state. -/
def ntInit : NTState := ⟨[], false, 0, [], []⟩

/- ================================================================
   Part 2: JavaScript values and the object heap
   (observer/index.js, observer/array.js, observer/traverse.js).
   ================================================================ -/

/-- JavaScript primitive values.  `nan` is kept separate from the other
numbers so that strict equality can model NaN's self-inequality; numbers
are otherwise modelled as integers (the claims under study never depend
on fractional values). -/
inductive Prim where
  | undef
  | null
  | boolean (b : Bool)
  | num (n : Int)
  | nan
  | str (s : String)
deriving DecidableEq, Repr

/-- A JavaScript value: a primitive or a reference into the object heap. -/
inductive JSVal where
  | prim (p : Prim)
  | ref (n : Nat)
deriving DecidableEq, Repr

/-- JavaScript strict equality (`===`): structural on primitives, identity
on references, except that `NaN === x` is false for every `x`. -/
def sEq : JSVal → JSVal → Bool
  | .prim .nan, _ => false
  | _, .prim .nan => false
  | a, b => a == b

/-- JavaScript truthiness of a value. -/
def jsTruthy : JSVal → Bool
  | .prim .undef => false
  | .prim .null => false
  | .prim (.boolean b) => b
  | .prim (.num n) => n != 0
  | .prim .nan => false
  | .prim (.str s) => s != ""
  | .ref _ => true

/-- Property-key string coercion (`String(key)`), as performed by the
JavaScript property access / `in` operator. -/
def jsKeyStr : JSVal → String
  | .prim (.str s) => s
  | .prim (.num n) => toString n
  | .prim .nan => "NaN"
  | .prim .undef => "undefined"
  | .prim .null => "null"
  | .prim (.boolean b) => if b then "true" else "false"
  | .ref _ => "[object Object]"

/-- The value stored in a hidden `__ob__` slot: either an actual Observer
instance (by observer-table id) or some other raw value (which fails the
`instanceof Observer` test in `observe`). -/
inductive ObMark where
  | obs (i : Nat)
  | raw (v : JSVal)
deriving DecidableEq, Repr

/-- One heap object.  `isArray` discriminates ordered sequences (using
`elems`) from keyed objects (using `fields`); `plainObj` is the
`isPlainObject` test, `extensible` is `Object.isExtensible`, `frozen` is
`Object.isFrozen`, `isVue`/`isVNode` are the `_isVue` flag and the
`instanceof VNode` test.  `bindings` maps keys that `defineReactive` has
intercepted to the id of the per-key Dep; `nonConfig` lists keys whose
property descriptor is non-configurable; `mark` is the `__ob__` slot;
`intercepted` records that the seven mutating array methods have been
patched onto this object (protoAugment / copyAugment). -/
structure HeapObj where
  isArray : Bool := false
  plainObj : Bool := false
  extensible : Bool := true
  frozen : Bool := false
  isVue : Bool := false
  isVNode : Bool := false
  fields : List (String × JSVal) := []
  nonConfig : List String := []
  bindings : List (String × Nat) := []
  elems : List JSVal := []
  mark : Option ObMark := none
  intercepted : Bool := false
deriving DecidableEq, Repr

/-- An Observer instance: the id of its own Dep (`this.dep`), its
root-$data holder count (`vmCount`), and the heap reference of the value
it observes (`this.value`). -/
structure Observer where
  depId : Nat
  vmCount : Nat := 0
  valueRef : Nat
deriving DecidableEq, Repr

/-- Association-list lookup (first match wins, like a JavaScript object /
map keyed by identity). -/
def alookup {κ α : Type} [DecidableEq κ] : List (κ × α) → κ → Option α
  | [], _ => none
  | (j, a) :: t, k => if j = k then some a else alookup t k

/-- Association-list in-place update: every entry with the given key is
rewritten (tables built by the model keep keys distinct; rewriting all
matches keeps the function total without a freshness side condition). -/
def aupdate {κ α : Type} [DecidableEq κ] (l : List (κ × α)) (k : κ) (f : α → α) :
    List (κ × α) :=
  l.map (fun p => if p.1 = k then (p.1, f p.2) else p)

/-- Update the value at a string key, appending the entry if absent
(JavaScript assignment to a possibly-new property). -/
def fupdate (l : List (String × JSVal)) (k : String) (v : JSVal) :
    List (String × JSVal) :=
  if (alookup l k).isSome then aupdate l k (fun _ => v) else l ++ [(k, v)]

/-- The global state of the observation engine: the object heap, the
Observer instances, the Dep table (each Dep holds its current subscriber
ids — Dep itself lives in dep.js, which is not among the surveyed files;
its subscriber list and `notify` behaviour are modelled from the spec:
`notify()` iterates a snapshot of subscribers and invokes each), fresh-id
counters, the `shouldObserve` toggle, the build flag
(`process.env.NODE_ENV !== "production"`), and three logs: dep ids on
which `notify()` was called, subscriber ids that were sent an update by a
`notify()`, and the number of `warn` diagnostics emitted. -/
structure St where
  heap : List (Nat × HeapObj) := []
  obs : List (Nat × Observer) := []
  deps : List (Nat × List Nat) := []
  nextObsId : Nat := 0
  nextDepId : Nat := 0
  shouldObserve : Bool := true
  dev : Bool := true
  notifyLog : List Nat := []
  updatedLog : List Nat := []
  warnCount : Nat := 0
deriving DecidableEq, Repr

/-- `dep.notify()`: record the call and deliver an update to every current
subscriber of that Dep. -/
def notify (s : St) (d : Nat) : St :=
  { s with
    notifyLog := s.notifyLog ++ [d]
    updatedLog := s.updatedLog ++ ((alookup s.deps d).getD []) }

/-- `warn(...)`: count a non-fatal development-build diagnostic. -/
def warnStep (s : St) : St := { s with warnCount := s.warnCount + 1 }

/-- Update one heap object in place. -/
def heapUpd (s : St) (n : Nat) (f : HeapObj → HeapObj) : St :=
  { s with heap := aupdate s.heap n f }

/- ================================================================
   Part 3: observe / Observer constructor / walk / observeArray /
   defineReactive (observer/index.js).
   The Observer constructor first sets the `__ob__` marker and then
   recurses into the container's children, so the recursion is mutual;
   it is made total with a fuel parameter (`none` = fuel exhausted).
   ================================================================ -/

mutual

/-- `observe(value, asRootData)`: skip non-objects and VNodes; return the
existing Observer if the value carries a valid `__ob__` marker; otherwise,
if observation is enabled and the value is an extensible plain object or
array that is not a Vue instance, construct a new Observer (set the
marker, patch array methods and observe elements, or walk object keys);
finally bump `vmCount` when `asRootData` and an observer was obtained. -/
def observeFuel : Nat → St → JSVal → Bool → Option (Option Nat × St)
  | 0, _, _, _ => none
  | fuel+1, s, v, asRoot =>
    match v with
    | .prim _ => some (none, s)
    | .ref n =>
      match alookup s.heap n with
      | none => some (none, s)
      | some o =>
        if o.isVNode then some (none, s)
        else
          match o.mark with
          | some (.obs i) =>
            let s' := if asRoot
              then { s with obs := aupdate s.obs i (fun a => { a with vmCount := a.vmCount + 1 }) }
              else s
            some (some i, s')
          | _ =>
            if s.shouldObserve && (o.isArray || o.plainObj) && o.extensible && !o.isVue then
              let i := s.nextObsId
              let d := s.nextDepId
              let s1 : St := { s with
                nextObsId := i + 1
                nextDepId := d + 1
                obs := s.obs ++ [(i, ⟨d, 0, n⟩)]
                deps := s.deps ++ [(d, [])]
                heap := aupdate s.heap n (fun o =>
                  { o with mark := some (.obs i)
                           intercepted := o.isArray || o.intercepted }) }
              match (if o.isArray then observeListF fuel s1 o.elems
                     else walkF fuel s1 n (o.fields.map Prod.fst)) with
              | none => none
              | some s2 =>
                let s3 := if asRoot
                  then { s2 with obs := aupdate s2.obs i (fun a => { a with vmCount := a.vmCount + 1 }) }
                  else s2
                some (some i, s3)
            else
              some (none, s)
termination_by fuel _ _ _ => (fuel, 0)

/-- `Observer.observeArray(items)`: observe each element in order. -/
def observeListF : Nat → St → List JSVal → Option St
  | _, s, [] => some s
  | fuel, s, v :: vs =>
    match observeFuel fuel s v false with
    | none => none
    | some (_, s') => observeListF fuel s' vs
termination_by fuel _ vs => (fuel, vs.length + 2)

/-- `Observer.walk(obj)`: apply `defineReactive` to every current key. -/
def walkF : Nat → St → Nat → List String → Option St
  | _, s, _, [] => some s
  | fuel, s, n, k :: ks =>
    match defineReactiveF fuel s n k none with
    | none => none
    | some s' => walkF fuel s' n ks
termination_by fuel _ _ ks => (fuel, ks.length + 2)

/-- `defineReactive(obj, key, val?)`: allocate the per-key Dep, bail out on
a non-configurable descriptor, read the current value when called with two
arguments (the walk path; `valArg = none`), observe the child value, then
install the intercepted accessor pair (recorded in `bindings`; a
three-argument call from `set` also commits the cached value into the
property). -/
def defineReactiveF : Nat → St → Nat → String → Option JSVal → Option St
  | fuel, s, n, key, valArg =>
    match alookup s.heap n with
    | none => some s
    | some o =>
      let d := s.nextDepId
      let s1 : St := { s with nextDepId := d + 1, deps := s.deps ++ [(d, [])] }
      if key ∈ o.nonConfig then some s1
      else
        let val := match valArg with
          | some v => v
          | none => (alookup o.fields key).getD (.prim .undef)
        match observeFuel fuel s1 val false with
        | none => none
        | some (_, s2) =>
          some (heapUpd s2 n (fun o =>
            { o with
              bindings :=
                if (alookup o.bindings key).isSome
                then aupdate o.bindings key (fun _ => d)
                else o.bindings ++ [(key, d)]
              fields := match valArg with
                | some v => fupdate o.fields key v
                | none => o.fields }))
termination_by fuel _ _ _ _ => (fuel, 1)

end

/- ================================================================
   Part 4: the reactive setter, the intercepted array mutators
   (observer/array.js) and the `set` mutation entry point.
   ================================================================ -/

/-- `reactiveSetter(newVal)` for a plain-data binding (no pre-existing
accessor pair): read the cached value, short-circuit when the new value is
strictly equal to the old one or both are self-unequal (NaN), otherwise
commit the new value, observe it, and notify the key's Dep `d`. -/
def reactiveSetterSt (fuel : Nat) (s : St) (n : Nat) (key : String) (d : Nat)
    (newVal : JSVal) : Option St :=
  match alookup s.heap n with
  | none => some s
  | some o =>
    let value := (alookup o.fields key).getD (.prim .undef)
    if sEq newVal value || (!sEq newVal newVal && !sEq value value) then some s
    else
      let s1 := heapUpd s n (fun o => { o with fields := fupdate o.fields key newVal })
      match observeFuel fuel s1 newVal false with
      | none => none
      | some (_, s2) => some (notify s2 d)

/-- The intercepted in-place mutating array methods relevant to the claims
(`sort` and `reverse` insert nothing and follow the `pop`/`shift` shape). -/
inductive ArrMethod where
  | push | pop | shift | unshift | splice
deriving DecidableEq, Repr

/-- The value returned by a native array method: a new length, a removed
element (possibly `undefined`), or the removed slice. -/
inductive MutResult where
  | num (n : Int)
  | val (v : JSVal)
  | arr (vs : List JSVal)
deriving DecidableEq, Repr

/-- JavaScript ToInteger as used by `splice` arguments (the modelled calls
only ever pass integers; NaN/undefined coerce to 0). -/
def jsToInt : JSVal → Int
  | .prim (.num n) => n
  | .prim (.str s) => ((s.toNat?).map Int.ofNat).getD 0
  | .prim (.boolean b) => if b then 1 else 0
  | _ => 0

/-- `Array.prototype.splice` element manipulation: clamp the start index
and deletion count, return the new contents and the removed slice. -/
def jsSplice (l : List JSVal) (startArg delArg : Int) (items : List JSVal) :
    List JSVal × List JSVal :=
  let len : Int := l.length
  let start : Nat := if startArg < 0 then (max 0 (len + startArg)).toNat
                     else (min startArg len).toNat
  let dc : Nat := (min (max delArg 0) (len - (start : Int))).toNat
  (l.take start ++ items ++ l.drop (start + dc), (l.drop start).take dc)

/-- `original.apply(this, args)`: the native behaviour of each method. -/
def nativeApply : ArrMethod → List JSVal → List JSVal → List JSVal × MutResult
  | .push, l, args => (l ++ args, .num (l.length + args.length))
  | .pop, l, _ => (l.dropLast, .val ((l.getLast?).getD (.prim .undef)))
  | .shift, l, _ => (l.tail, .val ((l.head?).getD (.prim .undef)))
  | .unshift, l, args => (args ++ l, .num (args.length + l.length))
  | .splice, l, args =>
    match args with
    | [] => (l, .arr [])
    | [a] =>
      let p := jsSplice l (jsToInt a) (Int.ofNat l.length) []
      (p.1, .arr p.2)
    | a :: b :: rest =>
      let p := jsSplice l (jsToInt a) (jsToInt b) rest
      (p.1, .arr p.2)

/-- The `mutator` wrapper installed on observed arrays: run the native
method, read `this.__ob__`, observe the newly inserted elements
(`push`/`unshift`: the arguments; `splice`: the arguments past the first
two), then call `notify()` on the observer's Dep and return the native
result.  A missing or invalid `__ob__` makes the JavaScript throw
(`none`), but the wrapper is only ever installed alongside a valid
marker. -/
def mutatorF (fuel : Nat) (s : St) (n : Nat) (m : ArrMethod) (args : List JSVal) :
    Option (St × MutResult) :=
  match alookup s.heap n with
  | none => none
  | some o =>
    let r := nativeApply m o.elems args
    let s1 := heapUpd s n (fun o => { o with elems := r.1 })
    match o.mark with
    | some (.obs i) =>
      let inserted : Option (List JSVal) := match m with
        | .push | .unshift => some args
        | .splice => some (args.drop 2)
        | _ => none
      let step : Option St := match inserted with
        | none => some s1
        | some ins => observeListF fuel s1 ins
      match step with
      | none => none
      | some s2 =>
        match alookup s2.obs i with
        | none => none
        | some a => some (notify s2 a.depId, r.2)
    | _ => none

/-- Modelled from the spec: `isValidArrayIndex` lives in shared/util.js,
which is not among the surveyed files; per the spec the array fast path of
`set` applies when the key is a valid, non-negative integer index. -/
def isValidArrayIndex : JSVal → Bool
  | .prim (.num n) => 0 ≤ n
  | .prim (.str s) => (s.toNat?).isSome
  | _ => false

/-- Numeric value of a valid array index key. -/
def toIdx : JSVal → Nat
  | .prim (.num n) => n.toNat
  | .prim (.str s) => (s.toNat?).getD 0
  | _ => 0

/-- Modelled from the spec: the "native base-object keys" tested by
`key in Object.prototype` — the own properties of `Object.prototype`. -/
def protoKeys : List String :=
  ["constructor", "hasOwnProperty", "isPrototypeOf", "propertyIsEnumerable",
   "toLocaleString", "toString", "valueOf"]

/-- `isUndef(target) || isPrimitive(target)`: `undefined`, or a
string / number / boolean value (`null` satisfies neither test). -/
def warnsPrimitive : JSVal → Bool
  | .prim .undef => true
  | .prim .null => false
  | .prim _ => true
  | .ref _ => false

/-- Which branch of `set` handled the call.  `crashed` marks inputs on
which the JavaScript throws a TypeError (primitive targets reaching the
`in` operator, or a truthy non-Observer `__ob__`). -/
inductive SetPath where
  | crashed | arrayPath | plainWrite | rejectedRoot | plainAssign | defineNew
deriving DecidableEq, Repr

/-- `set(target, key, val)`: warn on undefined/primitive targets; route
valid integer indices on arrays through length extension plus `splice`;
perform a plain (possibly reactive) write when the key is already present
on the object and is not a base-object key; refuse new keys on Vue
instances or root $data (nonzero `vmCount`); assign non-reactively when
the target has no observer; otherwise `defineReactive` the new key on the
observer's value and notify the observer's Dep. -/
def set (fuel : Nat) (s : St) (target key val : JSVal) : Option (St × SetPath) :=
  let s := if s.dev && warnsPrimitive target then warnStep s else s
  match target with
  | .prim _ => some (s, .crashed)
  | .ref n =>
    match alookup s.heap n with
    | none => some (s, .crashed)
    | some o =>
      if o.isArray && isValidArrayIndex key then
        let k := toIdx key
        let padded := o.elems ++
          List.replicate (max o.elems.length k - o.elems.length) (.prim .undef)
        let s1 := heapUpd s n (fun o => { o with elems := padded })
        if o.intercepted then
          match mutatorF fuel s1 n .splice [.prim (.num (k : Int)), .prim (.num 1), val] with
          | none => none
          | some (s2, _) => some (s2, .arrayPath)
        else
          some (heapUpd s1 n (fun o => { o with elems := (jsSplice o.elems (k : Int) 1 [val]).1 }),
                .arrayPath)
      else
        let ks := jsKeyStr key
        if ((alookup o.fields ks).isSome || protoKeys.contains ks)
            && !(protoKeys.contains ks) then
          match alookup o.bindings ks with
          | some d =>
            match reactiveSetterSt fuel s n ks d val with
            | none => none
            | some s' => some (s', .plainWrite)
          | none =>
            some (heapUpd s n (fun o => { o with fields := fupdate o.fields ks val }),
                  .plainWrite)
        else
          if o.isVue || (match o.mark with
              | some (.obs i) => (((alookup s.obs i).map Observer.vmCount).getD 0) != 0
              | _ => false) then
            some (if s.dev then warnStep s else s, .rejectedRoot)
          else
            match o.mark with
            | none =>
              some (heapUpd s n (fun o => { o with fields := fupdate o.fields ks val }),
                    .plainAssign)
            | some (.raw w) =>
              if jsTruthy w then some (s, .crashed)
              else
                some (heapUpd s n (fun o => { o with fields := fupdate o.fields ks val }),
                      .plainAssign)
            | some (.obs i) =>
              match alookup s.obs i with
              | none => none
              | some a =>
                match defineReactiveF fuel s a.valueRef ks (some val) with
                | none => none
                | some s2 => some (notify s2 a.depId, .defineNew)

/- ================================================================
   Part 5: deep traversal (observer/traverse.js).
   `_traverse(val, seen)` returns early for non-containers, frozen
   values and VNodes; when the value carries an `__ob__` it stops if
   the observer's dep id is already in `seen` and records it
   otherwise; then it recurses into elements / field values, from the
   last to the first (the source iterates `while (i--)`).  `seen` is
   modelled as the ordered list of recorded dep ids, so the final
   list is also the order in which Dependency Sets were registered
   during the call.  Fuel bounds the recursion depth (`none` = fuel
   exhausted — or, for a truthy non-Observer `__ob__`, a throw).
   ================================================================ -/

mutual

/-- `_traverse(val, seen)`. -/
def traverseF : Nat → St → JSVal → List Nat → Option (List Nat)
  | 0, _, _, _ => none
  | fuel+1, s, v, seen =>
    match v with
    | .prim _ => some seen
    | .ref n =>
      match alookup s.heap n with
      | none => some seen
      | some o =>
        if o.frozen || o.isVNode then some seen
        else
          match o.mark with
          | some (.obs i) =>
            let depId := ((alookup s.obs i).map Observer.depId).getD 0
            if depId ∈ seen then some seen
            else traverseChildrenF fuel s o (seen ++ [depId])
          | some (.raw w) =>
            if jsTruthy w then none
            else traverseChildrenF fuel s o seen
          | none => traverseChildrenF fuel s o seen
termination_by fuel _ _ _ => (fuel, 0)

/-- The per-container recursion of `_traverse`: all elements (arrays) or
all field values (objects), iterated back to front. -/
def traverseChildrenF : Nat → St → HeapObj → List Nat → Option (List Nat)
  | fuel, s, o, seen =>
    if o.isArray then traverseListF fuel s o.elems.reverse seen
    else traverseListF fuel s ((o.fields.map Prod.snd).reverse) seen
termination_by fuel _ o _ => (fuel, o.elems.length + o.fields.length + 3)

/-- Fold `_traverse` over a list of child values, threading `seen`. -/
def traverseListF : Nat → St → List JSVal → List Nat → Option (List Nat)
  | _, _, [], seen => some seen
  | fuel, s, v :: vs, seen =>
    match traverseF fuel s v seen with
    | none => none
    | some seen' => traverseListF fuel s vs seen'
termination_by fuel _ vs _ => (fuel, vs.length + 2)

end

/-- `traverse(val)`: run `_traverse` against the module-global
`seenObjects` set (empty between calls) and clear it afterwards.  The
first component is the ordered list of dep ids recorded during the call;
the second is the global `seenObjects` after `seenObjects.clear()`. -/
def traverse (fuel : Nat) (s : St) (v : JSVal) : Option (List Nat × List Nat) :=
  match traverseF fuel s v [] with
  | none => none
  | some out => some (out, [])

/- ================================================================
   Part 6: infrastructure lemmas — association lists, and the state
   facts preserved by the observe family (which only adds observers,
   deps and `__ob__` markers, and never notifies, warns, or changes
   the visible contents of existing objects).
   ================================================================ -/

theorem alookup_append_of_some {κ α : Type} [DecidableEq κ] {l : List (κ × α)} {k : κ}
    {a : α} (h : alookup l k = some a) (m : List (κ × α)) : alookup (l ++ m) k = some a := by
  induction l with
  | nil => simp [alookup] at h
  | cons p t ih =>
    by_cases hpk : p.1 = k
    · simpa [alookup, hpk] using h
    · simp only [alookup, List.cons_append, if_neg hpk] at h ⊢
      exact ih h

theorem aupdate_cons {κ α : Type} [DecidableEq κ] (q : κ) (b : α) (t : List (κ × α))
    (k : κ) (f : α → α) :
    aupdate ((q, b) :: t) k f = (if q = k then (q, f b) else (q, b)) :: aupdate t k f := rfl

theorem alookup_aupdate {κ α : Type} [DecidableEq κ] (l : List (κ × α)) (k j : κ)
    (f : α → α) :
    alookup (aupdate l k f) j = if k = j then (alookup l j).map f else alookup l j := by
  induction l with
  | nil => simp [alookup, aupdate]
  | cons p t ih =>
    obtain ⟨q, b⟩ := p
    rw [aupdate_cons]
    by_cases h1 : q = k
    · rw [if_pos h1]
      subst h1
      by_cases h2 : q = j
      · subst h2
        simp [alookup]
      · simp [alookup, h2, ih]
    · rw [if_neg h1]
      by_cases h2 : q = j
      · subst h2
        have hkq : ¬ k = q := fun h => h1 h.symm
        simp [alookup, hkq]
      · simp [alookup, h2, ih]

/-- `o'` has the same externally-visible shape as `o`: same kind, flags,
contents and configuration, and every valid Observer marker of `o` is
still in place (the observe family may add a marker or a binding, never
remove or change an existing valid one). -/
structure ObjSim (o o' : HeapObj) : Prop where
  isArray : o'.isArray = o.isArray
  plainObj : o'.plainObj = o.plainObj
  extensible : o'.extensible = o.extensible
  frozen : o'.frozen = o.frozen
  isVue : o'.isVue = o.isVue
  isVNode : o'.isVNode = o.isVNode
  elems : o'.elems = o.elems
  fields : o'.fields = o.fields
  nonConfig : o'.nonConfig = o.nonConfig
  mark : ∀ i, o.mark = some (.obs i) → o'.mark = some (.obs i)

theorem ObjSim.orefl (o : HeapObj) : ObjSim o o :=
  ⟨rfl, rfl, rfl, rfl, rfl, rfl, rfl, rfl, rfl, fun _ h => h⟩

theorem ObjSim.ocomp {a b c : HeapObj} (h1 : ObjSim a b) (h2 : ObjSim b c) : ObjSim a c :=
  ⟨h2.isArray.trans h1.isArray, h2.plainObj.trans h1.plainObj,
   h2.extensible.trans h1.extensible, h2.frozen.trans h1.frozen,
   h2.isVue.trans h1.isVue, h2.isVNode.trans h1.isVNode,
   h2.elems.trans h1.elems, h2.fields.trans h1.fields,
   h2.nonConfig.trans h1.nonConfig, fun i h => h2.mark i (h1.mark i h)⟩

/-- What a run of the observe family (with `asRootData = false`) preserves
of the state: the three logs, the two global flags, every existing
observer and dep entry, and the shape of every existing heap object. -/
structure Pres (s s' : St) : Prop where
  notifyLog : s'.notifyLog = s.notifyLog
  updatedLog : s'.updatedLog = s.updatedLog
  warnCount : s'.warnCount = s.warnCount
  shouldObserve : s'.shouldObserve = s.shouldObserve
  dev : s'.dev = s.dev
  obs : ∀ a A, alookup s.obs a = some A → alookup s'.obs a = some A
  deps : ∀ d l, alookup s.deps d = some l → alookup s'.deps d = some l
  heap : ∀ n o, alookup s.heap n = some o →
    ∃ o', alookup s'.heap n = some o' ∧ ObjSim o o'

theorem Pres.prefl (s : St) : Pres s s :=
  ⟨rfl, rfl, rfl, rfl, rfl, fun _ _ h => h, fun _ _ h => h,
   fun _ o h => ⟨o, h, ObjSim.orefl o⟩⟩

/-- Updating one heap object with a shape-preserving function is a
`Pres` step. -/
theorem presHeapUpd (s : St) (n : Nat) (f : HeapObj → HeapObj) (o : HeapObj)
    (ho : alookup s.heap n = some o) (hfo : ObjSim o (f o)) : Pres s (heapUpd s n f) := by
  refine ⟨rfl, rfl, rfl, rfl, rfl, fun _ _ h => h, fun _ _ h => h, fun m om hm => ?_⟩
  show ∃ o', alookup (aupdate s.heap n f) m = some o' ∧ ObjSim om o'
  rw [alookup_aupdate]
  by_cases hnm : n = m
  · subst hnm
    rw [ho] at hm
    injection hm with hm2
    subst hm2
    exact ⟨f o, by rw [ho, if_pos rfl]; rfl, hfo⟩
  · exact ⟨om, by rw [if_neg hnm]; exact hm, ObjSim.orefl om⟩

theorem Pres.pcomp {a b c : St} (h1 : Pres a b) (h2 : Pres b c) : Pres a c := by
  refine ⟨h2.notifyLog.trans h1.notifyLog, h2.updatedLog.trans h1.updatedLog,
    h2.warnCount.trans h1.warnCount, h2.shouldObserve.trans h1.shouldObserve,
    h2.dev.trans h1.dev,
    fun x A h => h2.obs x A (h1.obs x A h),
    fun d l h => h2.deps d l (h1.deps d l h),
    fun n o h => ?_⟩
  obtain ⟨o1, hl1, hs1⟩ := h1.heap n o h
  obtain ⟨o2, hl2, hs2⟩ := h2.heap n o1 hl1
  exact ⟨o2, hl2, hs1.ocomp hs2⟩

/-- Allocating a fresh Dep (`new Dep()`) is a `Pres` step. -/
theorem presDepAlloc (s : St) (e : Nat × List Nat) (nd : Nat) :
    Pres s { s with nextDepId := nd, deps := s.deps ++ [e] } :=
  ⟨rfl, rfl, rfl, rfl, rfl, fun _ _ h => h,
   fun d l h => alookup_append_of_some h [e],
   fun _ o h => ⟨o, h, ObjSim.orefl o⟩⟩

/-- The state built by the Observer constructor before it recurses —
fresh observer and dep appended, marker written — is a `Pres` step. -/
theorem presCreate (s : St) (n : Nat) (o : HeapObj) (iNew dNew : Nat)
    (A : Nat × Observer) (Dp : Nat × List Nat) (g : HeapObj → HeapObj)
    (ho : alookup s.heap n = some o) (hg : ObjSim o (g o)) :
    Pres s { s with
             nextObsId := iNew, nextDepId := dNew,
             obs := s.obs ++ [A], deps := s.deps ++ [Dp],
             heap := aupdate s.heap n g } := by
  refine ⟨rfl, rfl, rfl, rfl, rfl,
    fun a A0 h => alookup_append_of_some h [A],
    fun d l h => alookup_append_of_some h [Dp],
    fun m om hm => ?_⟩
  show ∃ o', alookup (aupdate s.heap n g) m = some o' ∧ ObjSim om o'
  rw [alookup_aupdate]
  by_cases hnm : n = m
  · subst hnm
    rw [ho] at hm
    injection hm with hm2
    subst hm2
    exact ⟨g o, by rw [ho, if_pos rfl]; rfl, hg⟩
  · exact ⟨om, by rw [if_neg hnm]; exact hm, ObjSim.orefl om⟩

/-- `defineReactive` on the walk path (two-argument form) is a `Pres`
step whenever recursive `observe` is. -/
theorem presDR (fuel : Nat)
    (hobs : ∀ s v r s', observeFuel fuel s v false = some (r, s') → Pres s s') :
    ∀ s n k s', defineReactiveF fuel s n k none = some s' → Pres s s' := by
  intro s n k s' h
  simp only [defineReactiveF] at h
  cases ho : alookup s.heap n with
  | none =>
    simp only [ho] at h
    injection h with h2
    subst h2
    exact Pres.prefl _
  | some o =>
    simp only [ho] at h
    by_cases hc : k ∈ o.nonConfig
    · rw [if_pos hc] at h
      injection h with h2
      subst h2
      exact presDepAlloc s _ _
    · rw [if_neg hc] at h
      split at h
      · exact absurd h (by simp)
      · next rr s2 heq =>
        injection h with h2
        subst h2
        have hp1 := hobs _ _ _ _ heq
        obtain ⟨o2, ho2, _⟩ := hp1.heap n o ho
        refine ((presDepAlloc s (s.nextDepId, []) (s.nextDepId + 1)).pcomp hp1).pcomp
          (presHeapUpd s2 n _ o2 ho2 ?_)
        exact ⟨rfl, rfl, rfl, rfl, rfl, rfl, rfl, rfl, rfl, fun _ hh => hh⟩

/-- `Observer.walk` is a `Pres` step whenever `defineReactive` is. -/
theorem presWalk (fuel : Nat)
    (hdr : ∀ s n k s', defineReactiveF fuel s n k none = some s' → Pres s s') :
    ∀ ks s n s', walkF fuel s n ks = some s' → Pres s s' := by
  intro ks
  induction ks with
  | nil =>
    intro s n s' h
    simp only [walkF] at h
    injection h with h2
    subst h2
    exact Pres.prefl s
  | cons k ks ih =>
    intro s n s' h
    simp only [walkF] at h
    cases h1 : defineReactiveF fuel s n k none with
    | none => simp only [h1] at h; exact Option.noConfusion h
    | some s1 =>
      simp only [h1] at h
      exact (hdr _ _ _ _ h1).pcomp (ih _ _ _ h)

/-- `Observer.observeArray` is a `Pres` step whenever `observe` is. -/
theorem presList (fuel : Nat)
    (hobs : ∀ s v r s', observeFuel fuel s v false = some (r, s') → Pres s s') :
    ∀ vs s s', observeListF fuel s vs = some s' → Pres s s' := by
  intro vs
  induction vs with
  | nil =>
    intro s s' h
    simp only [observeListF] at h
    injection h with h2
    subst h2
    exact Pres.prefl s
  | cons v vs ih =>
    intro s s' h
    simp only [observeListF] at h
    cases h1 : observeFuel fuel s v false with
    | none => simp only [h1] at h; exact Option.noConfusion h
    | some p =>
      obtain ⟨rr, s1⟩ := p
      simp only [h1] at h
      exact (hobs _ _ _ _ h1).pcomp (ih _ _ h)

/-- The main preservation property: `observe` with `asRootData = false`
(and everything it calls) never notifies, never warns, and never disturbs
existing observers, deps, or the visible shape of existing heap objects. -/
theorem presObs : ∀ fuel s v r s', observeFuel fuel s v false = some (r, s') → Pres s s' := by
  intro fuel
  induction fuel with
  | zero =>
    intro s v r s' h
    simp only [observeFuel] at h
    exact Option.noConfusion h
  | succ fuel ih =>
    intro s v r s' h
    cases v with
    | prim p =>
      simp only [observeFuel] at h
      injection h with h2
      injection h2 with h3 h4
      subst h4
      exact Pres.prefl _
    | ref n =>
      simp only [observeFuel] at h
      cases ho : alookup s.heap n with
      | none =>
        simp only [ho] at h
        injection h with h2
        injection h2 with h3 h4
        subst h4
        exact Pres.prefl _
      | some o =>
        simp only [ho] at h
        by_cases hvn : o.isVNode = true
        · rw [if_pos hvn] at h
          injection h with h2
          injection h2 with h3 h4
          subst h4
          exact Pres.prefl _
        · rw [if_neg hvn] at h
          cases hm : o.mark with
          | some m =>
            cases m with
            | obs i =>
              simp only [hm] at h
              rw [if_neg Bool.false_ne_true] at h
              injection h with h2
              injection h2 with h3 h4
              subst h4
              exact Pres.prefl _
            | raw w =>
              simp only [hm] at h
              by_cases hc : (s.shouldObserve && (o.isArray || o.plainObj)
                  && o.extensible && !o.isVue) = true
              · rw [if_pos hc] at h
                split at h
                · exact absurd h (by simp)
                · next s2 heq =>
                  rw [if_neg Bool.false_ne_true] at h
                  injection h with h2
                  injection h2 with h3 h4
                  subst h4
                  have hpc : Pres s _ := presCreate s n o (s.nextObsId + 1)
                    (s.nextDepId + 1) (s.nextObsId, ⟨s.nextDepId, 0, n⟩)
                    (s.nextDepId, [])
                    (fun o0 => { o0 with
                                 mark := some (.obs s.nextObsId)
                                 intercepted := o0.isArray || o0.intercepted }) ho
                    ⟨rfl, rfl, rfl, rfl, rfl, rfl, rfl, rfl, rfl,
                     fun i0 hx => by rw [hm] at hx; cases hx⟩
                  split at heq
                  · exact hpc.pcomp (presList fuel ih _ _ _ heq)
                  · exact hpc.pcomp (presWalk fuel (presDR fuel ih) _ _ _ _ heq)
              · rw [if_neg hc] at h
                injection h with h2
                injection h2 with h3 h4
                subst h4
                exact Pres.prefl _
          | none =>
            simp only [hm] at h
            by_cases hc : (s.shouldObserve && (o.isArray || o.plainObj)
                && o.extensible && !o.isVue) = true
            · rw [if_pos hc] at h
              split at h
              · exact absurd h (by simp)
              · next s2 heq =>
                rw [if_neg Bool.false_ne_true] at h
                injection h with h2
                injection h2 with h3 h4
                subst h4
                have hpc : Pres s _ := presCreate s n o (s.nextObsId + 1)
                  (s.nextDepId + 1) (s.nextObsId, ⟨s.nextDepId, 0, n⟩)
                  (s.nextDepId, [])
                  (fun o0 => { o0 with
                               mark := some (.obs s.nextObsId)
                               intercepted := o0.isArray || o0.intercepted }) ho
                  ⟨rfl, rfl, rfl, rfl, rfl, rfl, rfl, rfl, rfl,
                   fun i0 hx => by rw [hm] at hx; cases hx⟩
                split at heq
                · exact hpc.pcomp (presList fuel ih _ _ _ heq)
                · exact hpc.pcomp (presWalk fuel (presDR fuel ih) _ _ _ _ heq)
            · rw [if_neg hc] at h
              injection h with h2
              injection h2 with h3 h4
              subst h4
              exact Pres.prefl _

/- ================================================================
   Part 7: the scheduler claims.
   ================================================================ -/

/-- The state after enqueuing A, then B (which will enqueue D while it
runs), then C, starting from the idle scheduler. -/
def ntDemo (a b c d : Nat) : NTState :=
  nextTick ⟨⟨c, false⟩, []⟩
    (nextTick ⟨⟨b, false⟩, [⟨d, false⟩]⟩
      (nextTick ⟨⟨a, false⟩, []⟩ ntInit))

/-- C1: enqueuing A, B, C from an idle scheduler schedules exactly one
flush; that flush runs A, B, C once each in enqueue order; a callback D
enqueued by B during the flush is not run in the draining flush — it is
left queued for (and runs in) the next flush, after A, B, C. -/
theorem nextTick_batch_order (a b c d : Nat) :
    (ntDemo a b c d).scheduled = 1 ∧
    (flushCallbacks (ntDemo a b c d)).ran = [a, b, c] ∧
    (flushCallbacks (ntDemo a b c d)).callbacks = [⟨⟨d, false⟩, []⟩] ∧
    (flushCallbacks (ntDemo a b c d)).scheduled = 2 ∧
    (flushCallbacks (flushCallbacks (ntDemo a b c d))).ran = [a, b, c, d] :=
  ⟨rfl, rfl, rfl, rfl, rfl⟩

/-- Folding the flush loop over wrappers of leaf callbacks: every
non-throwing callback lands in `ran` and every throwing one lands in
`errorsHandled`, both in queue order; the loop never stops early. -/
theorem foldl_runOne_lift (cs : List Cb0) : ∀ (q : List Cb) (pnd : Bool) (k : Nat)
    (r e : List Nat),
    List.foldl runOne ⟨q, pnd, k, r, e⟩ (cs.map liftCb) =
      ⟨q, pnd, k,
       r ++ (cs.filter (fun c0 => !c0.throws)).map Cb0.id,
       e ++ (cs.filter (fun c0 => c0.throws)).map Cb0.id⟩ := by
  induction cs with
  | nil => intro q pnd k r e; simp
  | cons c cs ih =>
    intro q pnd k r e
    cases hct : c.throws with
    | false =>
      simp only [List.map_cons, List.foldl_cons, runOne, liftCb, List.foldl_nil, hct,
        Bool.false_eq_true, if_neg, ite_false]
      rw [ih]
      simp [List.filter_cons, hct]
    | true =>
      simp only [List.map_cons, List.foldl_cons, runOne, liftCb, List.foldl_nil, hct,
        ite_true]
      rw [ih]
      simp [List.filter_cons, hct]

/-- C8: if a flush's copied queue contains a throwing callback, its error
is caught by the wrapper and reported (`errorsHandled`) instead of
propagating, and every other callback of the copied queue still runs:
the flush always drains the whole queue. -/
theorem flush_isolates_errors (cs : List Cb0) (pnd : Bool) (k : Nat) (r e : List Nat) :
    flushCallbacks ⟨cs.map liftCb, pnd, k, r, e⟩ =
      ⟨[], false, k,
       r ++ (cs.filter (fun c0 => !c0.throws)).map Cb0.id,
       e ++ (cs.filter (fun c0 => c0.throws)).map Cb0.id⟩ := by
  show List.foldl runOne ⟨[], false, k, r, e⟩ (cs.map liftCb) = _
  exact foldl_runOne_lift cs [] false k r e

/- ================================================================
   Part 8: the setter claim (C2).
   ================================================================ -/

/-- The cached value a plain-data binding holds for `key` (the `val`
closed over by the intercepted accessor pair). -/
def curVal (o : HeapObj) (key : String) : JSVal :=
  (alookup o.fields key).getD (.prim .undef)

/-- C2: the reactive setter short-circuits — writing a value strictly
equal to the current one, or writing a self-unequal (NaN) value over a
self-unequal current value, leaves the entire state untouched (nothing is
committed, no `notify()` happens); and whenever a write does notify, the
new value genuinely differed under that comparison. -/
theorem reactiveSetter_guard (fuel : Nat) (s : St) (n : Nat) (key : String) (d : Nat)
    (o : HeapObj) (newVal : JSVal) (ho : alookup s.heap n = some o) :
    ((sEq newVal (curVal o key)
        || (!sEq newVal newVal && !sEq (curVal o key) (curVal o key))) = true →
      reactiveSetterSt fuel s n key d newVal = some s) ∧
    (∀ s', reactiveSetterSt fuel s n key d newVal = some s' →
      s'.notifyLog ≠ s.notifyLog →
      (sEq newVal (curVal o key)
        || (!sEq newVal newVal && !sEq (curVal o key) (curVal o key))) = false) := by
  constructor
  · intro hg
    simp only [curVal] at hg
    simp only [reactiveSetterSt, ho]
    rw [if_pos hg]
  · intro s' hrun hne
    by_cases hg : (sEq newVal (curVal o key)
        || (!sEq newVal newVal && !sEq (curVal o key) (curVal o key))) = true
    · exfalso
      apply hne
      simp only [curVal] at hg
      simp only [reactiveSetterSt, ho] at hrun
      rw [if_pos hg] at hrun
      injection hrun with h2
      subst h2
      rfl
    · exact Bool.eq_false_iff.mpr hg

/- ================================================================
   Part 9: observe idempotence (C3) and marker-first lookup (C10).
   ================================================================ -/

/-- The marker branch of `observe`: a value whose `__ob__` holds an
Observer instance yields that observer, before any of the toggle /
extensibility / plainness checks are consulted. -/
theorem observe_hits_marker (fuel : Nat) (s : St) (n i : Nat) (o : HeapObj)
    (asRoot : Bool) (ho : alookup s.heap n = some o) (hvn : o.isVNode = false)
    (hm : o.mark = some (.obs i)) :
    observeFuel (fuel+1) s (.ref n) asRoot =
      some (some i, if asRoot
        then { s with obs := aupdate s.obs i (fun a => { a with vmCount := a.vmCount + 1 }) }
        else s) := by
  simp only [observeFuel, ho, hvn, hm]
  rw [if_neg Bool.false_ne_true]

/-- In the Observer-constructor branch, the marker is written before the
children are processed, the recursive walk preserves it, and the final
`vmCount` bump leaves the heap alone — so the returned state carries the
fresh observer in the value's `__ob__` slot. -/
theorem observe_creation_mark (fuel : Nat) (s s2 s' : St) (n i : Nat) (o : HeapObj)
    (asRoot : Bool) (ho : alookup s.heap n = some o) (hvn : o.isVNode = false)
    (heq : (if o.isArray
        then observeListF fuel
          { s with
            nextObsId := s.nextObsId + 1, nextDepId := s.nextDepId + 1,
            obs := s.obs ++ [(s.nextObsId, ⟨s.nextDepId, 0, n⟩)],
            deps := s.deps ++ [(s.nextDepId, [])],
            heap := aupdate s.heap n (fun o0 => { o0 with
              mark := some (.obs s.nextObsId)
              intercepted := o0.isArray || o0.intercepted }) } o.elems
        else walkF fuel
          { s with
            nextObsId := s.nextObsId + 1, nextDepId := s.nextDepId + 1,
            obs := s.obs ++ [(s.nextObsId, ⟨s.nextDepId, 0, n⟩)],
            deps := s.deps ++ [(s.nextDepId, [])],
            heap := aupdate s.heap n (fun o0 => { o0 with
              mark := some (.obs s.nextObsId)
              intercepted := o0.isArray || o0.intercepted }) } n
          (o.fields.map Prod.fst)) = some s2)
    (hi : i = s.nextObsId)
    (hs : s' = (if asRoot
      then { s2 with
             obs := aupdate s2.obs s.nextObsId (fun a => { a with vmCount := a.vmCount + 1 }) }
      else s2)) :
    ∃ o', alookup s'.heap n = some o' ∧ o'.mark = some (.obs i) ∧ o'.isVNode = false := by
  have hpres : Pres
      { s with
        nextObsId := s.nextObsId + 1, nextDepId := s.nextDepId + 1,
        obs := s.obs ++ [(s.nextObsId, ⟨s.nextDepId, 0, n⟩)],
        deps := s.deps ++ [(s.nextDepId, [])],
        heap := aupdate s.heap n (fun o0 => { o0 with
          mark := some (.obs s.nextObsId)
          intercepted := o0.isArray || o0.intercepted }) } s2 := by
    split at heq
    · exact presList fuel (presObs fuel) _ _ _ heq
    · exact presWalk fuel (presDR fuel (presObs fuel)) _ _ _ _ heq
  have h1 : alookup
      ({ s with
        nextObsId := s.nextObsId + 1, nextDepId := s.nextDepId + 1,
        obs := s.obs ++ [(s.nextObsId, ⟨s.nextDepId, 0, n⟩)],
        deps := s.deps ++ [(s.nextDepId, [])],
        heap := aupdate s.heap n (fun o0 => { o0 with
          mark := some (.obs s.nextObsId)
          intercepted := o0.isArray || o0.intercepted }) } : St).heap n =
      some { o with
             mark := some (.obs s.nextObsId)
             intercepted := o.isArray || o.intercepted } := by
    show alookup (aupdate s.heap n (fun o0 => { o0 with
      mark := some (.obs s.nextObsId)
      intercepted := o0.isArray || o0.intercepted })) n = _
    rw [alookup_aupdate, if_pos rfl, ho]
    rfl
  obtain ⟨o2, ho2, sim⟩ := hpres.heap n _ h1
  have hsheap : s'.heap = s2.heap := by
    cases asRoot with
    | false => rw [if_neg Bool.false_ne_true] at hs; rw [hs]
    | true => rw [if_pos rfl] at hs; rw [hs]
  refine ⟨o2, by rw [hsheap]; exact ho2, ?_, ?_⟩
  · rw [hi]
    exact sim.mark s.nextObsId rfl
  · rw [sim.isVNode]
    exact hvn

/-- When `observe` returns an observer, the value is a heap reference
whose `__ob__` marker (in the returned state) holds exactly that
observer — whether it was found or freshly constructed. -/
theorem observe_some_mark (fuel : Nat) (s : St) (v : JSVal) (asRoot : Bool) (i : Nat)
    (s' : St) (h : observeFuel fuel s v asRoot = some (some i, s')) :
    ∃ n o', v = .ref n ∧ alookup s'.heap n = some o' ∧
      o'.mark = some (.obs i) ∧ o'.isVNode = false := by
  cases fuel with
  | zero =>
    simp only [observeFuel] at h
    exact Option.noConfusion h
  | succ fuel =>
    cases v with
    | prim p =>
      simp only [observeFuel] at h
      injection h with h2
      injection h2 with h3 h4
      exact Option.noConfusion h3
    | ref n =>
      simp only [observeFuel] at h
      cases ho : alookup s.heap n with
      | none =>
        simp only [ho] at h
        injection h with h2
        injection h2 with h3 h4
        exact Option.noConfusion h3
      | some o =>
        simp only [ho] at h
        by_cases hvn : o.isVNode = true
        · rw [if_pos hvn] at h
          injection h with h2
          injection h2 with h3 h4
          exact Option.noConfusion h3
        · rw [if_neg hvn] at h
          cases hm : o.mark with
          | some m =>
            cases m with
            | obs j =>
              simp only [hm] at h
              have hj : j = i ∧ (if asRoot
                  then { s with obs := aupdate s.obs j (fun a => { a with vmCount := a.vmCount + 1 }) }
                  else s) = s' := by
                cases asRoot with
                | false =>
                  rw [if_neg Bool.false_ne_true] at h ⊢
                  injection h with h2
                  injection h2 with h3 h4
                  exact ⟨Option.some.inj h3, h4⟩
                | true =>
                  rw [if_pos rfl] at h ⊢
                  injection h with h2
                  injection h2 with h3 h4
                  exact ⟨Option.some.inj h3, h4⟩
              obtain ⟨rfl, hs⟩ := hj
              refine ⟨n, o, rfl, ?_, hm, Bool.eq_false_iff.mpr hvn⟩
              have hheap : s'.heap = s.heap := by
                cases asRoot with
                | false => rw [if_neg Bool.false_ne_true] at hs; rw [← hs]
                | true => rw [if_pos rfl] at hs; rw [← hs]
              rw [hheap]
              exact ho
            | raw w =>
              simp only [hm] at h
              by_cases hc : (s.shouldObserve && (o.isArray || o.plainObj)
                  && o.extensible && !o.isVue) = true
              · rw [if_pos hc] at h
                split at h
                · exact absurd h (by simp)
                · next s2 heq =>
                  injection h with h2
                  injection h2 with h3 h4
                  obtain ⟨o', ho', hm', hvn'⟩ := observe_creation_mark fuel s s2 s' n i o
                    asRoot ho (Bool.eq_false_iff.mpr hvn) heq
                    (Option.some.inj h3).symm h4.symm
                  exact ⟨n, o', rfl, ho', hm', hvn'⟩
              · rw [if_neg hc] at h
                injection h with h2
                injection h2 with h3 h4
                exact Option.noConfusion h3
          | none =>
            simp only [hm] at h
            by_cases hc : (s.shouldObserve && (o.isArray || o.plainObj)
                && o.extensible && !o.isVue) = true
            · rw [if_pos hc] at h
              split at h
              · exact absurd h (by simp)
              · next s2 heq =>
                injection h with h2
                injection h2 with h3 h4
                obtain ⟨o', ho', hm', hvn'⟩ := observe_creation_mark fuel s s2 s' n i o
                  asRoot ho (Bool.eq_false_iff.mpr hvn) heq
                  (Option.some.inj h3).symm h4.symm
                exact ⟨n, o', rfl, ho', hm', hvn'⟩
            · rw [if_neg hc] at h
              injection h with h2
              injection h2 with h3 h4
              exact Option.noConfusion h3

/-- C10: `observe` returns the existing Observer of an already-observed
value no matter how the global toggle (`shouldObserve`) is set and no
matter whether the value is extensible — the `__ob__` marker check comes
first, and the toggle/extensibility conditions gate only the construction
of a new Observer. -/
theorem observe_marker_first (fuel : Nat) (s : St) (n i : Nat) (o : HeapObj)
    (asRoot : Bool) (ho : alookup s.heap n = some o) (hvn : o.isVNode = false)
    (hm : o.mark = some (.obs i)) :
    ∃ s', observeFuel (fuel+1) s (.ref n) asRoot = some (some i, s') :=
  ⟨_, observe_hits_marker fuel s n i o asRoot ho hvn hm⟩

/-- A non-extensible plain object carrying observer 4, in a state where
observation is globally disabled. -/
def c10St : St :=
  { heap := [(0, { plainObj := true, extensible := false, mark := some (.obs 4) })]
    obs := [(4, ⟨9, 0, 0⟩)]
    deps := [(9, [])]
    nextObsId := 5
    nextDepId := 10
    shouldObserve := false }

/-- Witness for C10: with `shouldObserve = false` and a non-extensible
target, `observe` still returns the existing observer. -/
theorem observe_marker_first_witness :
    ∃ s', observeFuel 1 c10St (.ref 0) false = some (some 4, s') :=
  observe_marker_first 0 c10St 0 4
    { plainObj := true, extensible := false, mark := some (.obs 4) } false
    (by rfl) (by rfl) (by rfl)

/-- C3: observing the same container twice returns the identical
Observer — once `observe` has yielded an observer `i` for a value, any
later `observe` of that value yields `i` again (the existing marker is
returned instead of constructing a new Observer). -/
theorem observe_idempotent (fuel : Nat) (s : St) (v : JSVal) (asRoot : Bool) (i : Nat)
    (s' : St) (h : observeFuel fuel s v asRoot = some (some i, s'))
    (fuel' : Nat) (asRoot' : Bool) :
    ∃ s'', observeFuel (fuel'+1) s' v asRoot' = some (some i, s'') := by
  obtain ⟨n, o', hv, ho', hm', hvn'⟩ := observe_some_mark fuel s v asRoot i s' h
  subst hv
  exact ⟨_, observe_hits_marker fuel' s' n i o' asRoot' ho' hvn' hm'⟩

/-- A fresh plain object with one key, not yet observed. -/
def c3St : St :=
  { heap := [(0, { plainObj := true, fields := [("x", .prim (.num 1))] })] }

/-- Witness for C3: observing object 0 creates observer 0; observing it
again in the resulting state returns observer 0 again. -/
theorem observe_idempotent_witness :
    ∃ s'', observeFuel 3 (((observeFuel 2 c3St (.ref 0) false).getD (none, c3St)).2)
      (.ref 0) false = some (some 0, s'') :=
  observe_idempotent 2 c3St (.ref 0) false 0
    (((observeFuel 2 c3St (.ref 0) false).getD (none, c3St)).2)
    (by simp [observeFuel, observeListF, walkF, defineReactiveF, c3St, alookup,
              aupdate, fupdate, heapUpd])
    2 false

/- ================================================================
   Part 10: the `set` entry-point claims (C9, C6, C5).
   ================================================================ -/

/-- C9: on a non-array target, `set` takes the plain (possibly reactive)
write path exactly when the key already exists as an own property of the
target and is not a native base-object (`Object.prototype`) key;
otherwise it falls through to the observer / root-count branch. -/
theorem set_plainWrite_iff (fuel : Nat) (s : St) (n : Nat) (o : HeapObj)
    (key val : JSVal) (ho : alookup s.heap n = some o) (hna : o.isArray = false)
    (s' : St) (p : SetPath) (h : set fuel s (.ref n) key val = some (s', p)) :
    p = SetPath.plainWrite ↔
      ((alookup o.fields (jsKeyStr key)).isSome = true ∧
       protoKeys.contains (jsKeyStr key) = false) := by
  simp only [set] at h
  rw [show (s.dev && warnsPrimitive (JSVal.ref n)) = false from by
        simp [warnsPrimitive]] at h
  rw [if_neg Bool.false_ne_true] at h
  simp only [ho] at h
  rw [show (o.isArray && isValidArrayIndex key) = false from by rw [hna]; rfl] at h
  rw [if_neg Bool.false_ne_true] at h
  by_cases hC : (((alookup o.fields (jsKeyStr key)).isSome
      || protoKeys.contains (jsKeyStr key))
      && !protoKeys.contains (jsKeyStr key)) = true
  · have hC2 : ((alookup o.fields (jsKeyStr key)).isSome = true
        ∨ protoKeys.contains (jsKeyStr key) = true)
        ∧ protoKeys.contains (jsKeyStr key) = false := by
      have h0 := hC
      simp only [Bool.and_eq_true, Bool.or_eq_true, Bool.not_eq_true'] at h0
      exact h0
    have hB : protoKeys.contains (jsKeyStr key) = false := hC2.2
    have hA : (alookup o.fields (jsKeyStr key)).isSome = true := by
      rcases hC2.1 with hx | hx
      · exact hx
      · rw [hB] at hx
        exact Bool.noConfusion hx
    rw [if_pos hC] at h
    refine ⟨fun _ => ⟨hA, hB⟩, fun _ => ?_⟩
    split at h
    · split at h
      · exact Option.noConfusion h
      · injection h with h2
        injection h2 with h3 h4
        exact h4.symm
    · injection h with h2
      injection h2 with h3 h4
      exact h4.symm
  · rw [if_neg hC] at h
    have hp : p ≠ SetPath.plainWrite := by
      split at h
      · injection h with h2
        injection h2 with h3 h4
        subst h4
        simp
      · split at h
        · injection h with h2
          injection h2 with h3 h4
          subst h4
          simp
        · split at h
          · injection h with h2
            injection h2 with h3 h4
            subst h4
            simp
          · injection h with h2
            injection h2 with h3 h4
            subst h4
            simp
        · split at h
          · exact Option.noConfusion h
          · split at h
            · exact Option.noConfusion h
            · injection h with h2
              injection h2 with h3 h4
              subst h4
              simp
    refine ⟨fun hpw => absurd hpw hp, fun hab => ?_⟩
    exfalso
    apply hC
    rw [hab.1, hab.2]
    rfl

/-- An observed plain object with one own key `"x"` (bound reactively),
whose observer has `vmCount = 0`. -/
def c9St : St :=
  { heap := [(0, { plainObj := true, fields := [("x", .prim (.num 1))],
                   bindings := [("x", 1)], mark := some (.obs 0) })]
    obs := [(0, ⟨0, 0, 0⟩)]
    deps := [(0, []), (1, [])]
    nextObsId := 1
    nextDepId := 2 }

/-- Witness for C9: writing the existing own key `"x"` takes the plain
reactive write path, and the characterization agrees. -/
theorem set_plainWrite_iff_witness :
    SetPath.plainWrite = SetPath.plainWrite ↔
      ((alookup ({ plainObj := true, fields := [("x", .prim (.num 1))],
                   bindings := [("x", 1)], mark := some (.obs 0) } : HeapObj).fields
          (jsKeyStr (.prim (.str "x")))).isSome = true ∧
       protoKeys.contains (jsKeyStr (.prim (.str "x"))) = false) :=
  set_plainWrite_iff 2 c9St 0
    { plainObj := true, fields := [("x", .prim (.num 1))],
      bindings := [("x", 1)], mark := some (.obs 0) }
    (.prim (.str "x")) (.prim (.num 2)) (by rfl) (by rfl)
    (((set 2 c9St (.ref 0) (.prim (.str "x")) (.prim (.num 2))).getD
        (c9St, SetPath.crashed)).1)
    SetPath.plainWrite
    (by simp [set, c9St, warnsPrimitive, isValidArrayIndex, jsKeyStr, protoKeys,
              alookup, aupdate, fupdate, heapUpd, reactiveSetterSt, sEq, notify,
              observeFuel, curVal])

/-- A plain object with a reactively bound key `"x"` whose current value
is NaN (for the C2 witness). -/
def c2St : St :=
  { heap := [(0, { plainObj := true, fields := [("x", .prim .nan)],
                   bindings := [("x", 2)], mark := some (.obs 1) })]
    obs := [(1, ⟨0, 0, 0⟩)]
    deps := [(0, []), (2, [])]
    nextObsId := 2
    nextDepId := 3 }

/-- Witness for C2: writing NaN over a NaN current value leaves the state
untouched (no commit, no notify). -/
theorem reactiveSetter_guard_witness :
    reactiveSetterSt 1 c2St 0 "x" 2 (.prim .nan) = some c2St :=
  (reactiveSetter_guard 1 c2St 0 "x" 2
    { plainObj := true, fields := [("x", .prim .nan)],
      bindings := [("x", 2)], mark := some (.obs 1) }
    (.prim .nan) (by rfl)).1 (by rfl)

/-- C6 (amended: for non-array targets — see the counterexample for why
the array fast path escapes the guard): `set` on a non-array target whose
observer has nonzero `vmCount` — or which is itself a Vue instance — with
a key that is not an own property, rejects the write: it mutates nothing,
notifies no Dep, leaves the key non-reactive, and (in a dev build) emits
one diagnostic. -/
theorem set_root_guard (fuel : Nat) (s : St) (n : Nat) (o : HeapObj)
    (key val : JSVal) (ho : alookup s.heap n = some o) (hna : o.isArray = false)
    (hroot : o.isVue = true ∨
      ∃ i a, o.mark = some (.obs i) ∧ alookup s.obs i = some a ∧ a.vmCount ≠ 0)
    (hnew : (alookup o.fields (jsKeyStr key)).isSome = false) :
    set fuel s (.ref n) key val =
      some ((if s.dev = true then warnStep s else s), SetPath.rejectedRoot) ∧
    ∀ s' p, set fuel s (.ref n) key val = some (s', p) →
      s'.heap = s.heap ∧ s'.notifyLog = s.notifyLog ∧ s'.updatedLog = s.updatedLog ∧
      p = SetPath.rejectedRoot ∧ (s.dev = true → s'.warnCount = s.warnCount + 1) := by
  have hmain : set fuel s (.ref n) key val =
      some ((if s.dev = true then warnStep s else s), SetPath.rejectedRoot) := by
    simp only [set]
    rw [show (s.dev && warnsPrimitive (JSVal.ref n)) = false from by
          simp [warnsPrimitive]]
    rw [if_neg Bool.false_ne_true]
    simp only [ho]
    rw [show (o.isArray && isValidArrayIndex key) = false from by rw [hna]; rfl]
    rw [if_neg Bool.false_ne_true]
    rw [show (((alookup o.fields (jsKeyStr key)).isSome
          || protoKeys.contains (jsKeyStr key))
          && !protoKeys.contains (jsKeyStr key)) = false from by
        rw [hnew]
        simp]
    rw [if_neg Bool.false_ne_true]
    rw [if_pos]
    rcases hroot with hv | ⟨i, a, hm, hoa, hvm⟩
    · rw [hv]
      rfl
    · rw [hm]
      simp only [hoa]
      simp [Bool.or_eq_true, hvm]
  refine ⟨hmain, fun s' p h => ?_⟩
  rw [hmain] at h
  injection h with h2
  injection h2 with h3 h4
  subst h3
  refine ⟨?_, ?_, ?_, h4.symm, fun hd => ?_⟩ <;>
    cases hdev : s.dev <;> simp [hdev, warnStep]
  · exact Bool.noConfusion (hdev ▸ hd)

/-- An observed empty array whose Observer is a root-$data holder
(`vmCount = 1`, dep id 5 with one prior subscriber 77). -/
def c6St : St :=
  { heap := [(0, { isArray := true, intercepted := true, mark := some (.obs 0) })]
    obs := [(0, ⟨5, 1, 0⟩)]
    deps := [(5, [77])]
    nextObsId := 1
    nextDepId := 6 }

/-- Counterexample to C6 as stated for *every* target: on an array target
whose Observer has `vmCount = 1`, `set` with the absent integer key 0
takes the array/`splice` fast path — it mutates the array, notifies the
Observer's Dep (dep 5, updating prior subscriber 77), and emits no
diagnostic, because the valid-index check precedes the root guard. -/
theorem set_root_guard_counterexample :
    set 2 c6St (.ref 0) (.prim (.num 0)) (.prim (.num 7)) =
      some ({ heap := [(0, { isArray := true, intercepted := true,
                             mark := some (.obs 0), elems := [.prim (.num 7)] })]
              obs := [(0, ⟨5, 1, 0⟩)]
              deps := [(5, [77])]
              nextObsId := 1
              nextDepId := 6
              notifyLog := [5]
              updatedLog := [77] }, SetPath.arrayPath) := by
  simp [set, c6St, warnsPrimitive, isValidArrayIndex, toIdx, mutatorF, nativeApply,
        jsSplice, jsToInt, observeListF, observeFuel, alookup, aupdate, heapUpd,
        notify]

/-- A root-held (`vmCount = 1`) observed plain object with no own keys. -/
def c6ObjSt : St :=
  { heap := [(0, { plainObj := true, mark := some (.obs 0) })]
    obs := [(0, ⟨5, 1, 0⟩)]
    deps := [(5, [77])]
    nextObsId := 1
    nextDepId := 6 }

/-- Witness for the amended C6: adding a new key to a root-held plain
object is rejected with one diagnostic and no mutation. -/
theorem set_root_guard_witness :
    set 2 c6ObjSt (.ref 0) (.prim (.str "newKey")) (.prim (.num 1)) =
      some ((if c6ObjSt.dev = true then warnStep c6ObjSt else c6ObjSt),
            SetPath.rejectedRoot) :=
  (set_root_guard 2 c6ObjSt 0 { plainObj := true, mark := some (.obs 0) }
    (.prim (.str "newKey")) (.prim (.num 1)) (by rfl) (by rfl)
    (Or.inr ⟨0, ⟨5, 1, 0⟩, by rfl, by rfl, by decide⟩) (by rfl)).1

/- ================================================================
   Part 11: the array-interceptor claim (C4).
   ================================================================ -/

/-- The value carries a valid Observer marker (`__ob__` holding an
Observer instance). -/
def hasObsMarkB (s : St) (v : JSVal) : Bool :=
  match v with
  | .prim _ => false
  | .ref n =>
    match alookup s.heap n with
    | none => false
    | some o =>
      match o.mark with
      | some (.obs _) => true
      | _ => false

/-- The value is a container eligible for observation in the sense of the
spec's glossary: a heap object that is not a VNode and either already
carries an Observer marker or satisfies every condition under which
`observe` constructs one (toggle on, array or plain object, extensible,
not a Vue instance). -/
def observableB (s : St) (v : JSVal) : Bool :=
  match v with
  | .prim _ => false
  | .ref n =>
    match alookup s.heap n with
    | none => false
    | some o =>
      !o.isVNode &&
        (match o.mark with
         | some (.obs _) => true
         | _ => s.shouldObserve && (o.isArray || o.plainObj) && o.extensible && !o.isVue)

/-- Rewriting only the `elems` of one heap object changes neither
eligibility of any value. -/
theorem observableB_elemsUpd (s : St) (m : Nat) (l : List JSVal) (v : JSVal) :
    observableB (heapUpd s m (fun o => { o with elems := l })) v = observableB s v := by
  cases v with
  | prim p => rfl
  | ref n =>
    show observableB { s with heap := aupdate s.heap m _ } (.ref n) = _
    simp only [observableB]
    rw [alookup_aupdate]
    by_cases hmn : m = n
    · rw [if_pos hmn]
      cases alookup s.heap n with
      | none => rfl
      | some o => rfl
    · rw [if_neg hmn]

/-- `notify` does not touch the heap, so it preserves markers. -/
theorem hasObsMarkB_notify (s : St) (d : Nat) (v : JSVal) :
    hasObsMarkB (notify s d) v = hasObsMarkB s v := rfl

/-- Observing an eligible container leaves it carrying an Observer
marker: either its existing marker is kept, or the constructor writes a
fresh one before walking the children, which preserve it. -/
theorem observe_observable_mark (fuel : Nat) (s : St) (v : JSVal) (r : Bool)
    (ob : Option Nat) (s' : St) (hv : observableB s v = true)
    (h : observeFuel fuel s v r = some (ob, s')) : hasObsMarkB s' v = true := by
  cases fuel with
  | zero =>
    simp only [observeFuel] at h
    exact Option.noConfusion h
  | succ fuel =>
    cases v with
    | prim p => simp [observableB] at hv
    | ref n =>
      simp only [observeFuel] at h
      cases ho : alookup s.heap n with
      | none => simp [observableB, ho] at hv
      | some o =>
        simp only [ho] at h
        simp only [observableB, ho, Bool.and_eq_true, Bool.not_eq_true'] at hv
        rw [hv.1] at h
        rw [if_neg Bool.false_ne_true] at h
        cases hm : o.mark with
        | some m =>
          cases m with
          | obs i =>
            simp only [hm] at h
            have hsheap : s'.heap = s.heap := by
              cases r with
              | false =>
                rw [if_neg Bool.false_ne_true] at h
                injection h with h2
                injection h2 with h3 h4
                rw [← h4]
              | true =>
                rw [if_pos rfl] at h
                injection h with h2
                injection h2 with h3 h4
                rw [← h4]
            simp [hasObsMarkB, hsheap, ho, hm]
          | raw w =>
            simp only [hm] at h hv
            rw [if_pos hv.2] at h
            split at h
            · exact absurd h (by simp)
            · next s2 heq =>
              injection h with h2
              injection h2 with h3 h4
              obtain ⟨o', ho', hm', _⟩ := observe_creation_mark fuel s s2 s' n
                s.nextObsId o r ho hv.1 heq rfl h4.symm
              simp [hasObsMarkB, ho', hm']
        | none =>
          simp only [hm] at h hv
          rw [if_pos hv.2] at h
          split at h
          · exact absurd h (by simp)
          · next s2 heq =>
            injection h with h2
            injection h2 with h3 h4
            obtain ⟨o', ho', hm', _⟩ := observe_creation_mark fuel s s2 s' n
              s.nextObsId o r ho hv.1 heq rfl h4.symm
            simp [hasObsMarkB, ho', hm']

/-- Projection facts for `heapUpd` and `notify` (record updates touch
only their own field). -/
theorem heap_heapUpd (s : St) (n : Nat) (f : HeapObj → HeapObj) :
    (heapUpd s n f).heap = aupdate s.heap n f := rfl

theorem obs_heapUpd (s : St) (n : Nat) (f : HeapObj → HeapObj) (a : Nat) :
    alookup (heapUpd s n f).obs a = alookup s.obs a := rfl

theorem notifyLog_heapUpd (s : St) (n : Nat) (f : HeapObj → HeapObj) :
    (heapUpd s n f).notifyLog = s.notifyLog := rfl

/-- C4: on an observed array, the intercepted `push(x)` followed by the
intercepted `pop()` calls `notify()` on the array Observer's Dep exactly
twice — once per operation — and after the push, `x` carries an Observer
marker whenever `x` is a container eligible for observation (each
inserting method observes its inserted arguments before notifying). -/
theorem mutator_push_pop (fuel fuel' : Nat) (s : St) (arr : Nat) (o : HeapObj)
    (a : Nat) (A : Observer) (x : JSVal)
    (ho : alookup s.heap arr = some o) (hm : o.mark = some (.obs a))
    (hA : alookup s.obs a = some A)
    (s1 : St) (r1 : MutResult) (h1 : mutatorF fuel s arr .push [x] = some (s1, r1))
    (s2 : St) (r2 : MutResult) (h2 : mutatorF fuel' s1 arr .pop [] = some (s2, r2)) :
    s2.notifyLog = s.notifyLog ++ [A.depId, A.depId] ∧
    (observableB s x = true → hasObsMarkB s1 x = true) := by
  simp only [mutatorF, ho, nativeApply, hm] at h1
  split at h1
  · exact absurd h1 (by simp)
  · next sx heq =>
    have hpres : Pres (heapUpd s arr
        (fun o0 => { o0 with elems := o.elems ++ [x] })) sx :=
      presList fuel (presObs fuel) _ _ _ heq
    have hA1 : alookup sx.obs a = some A := hpres.obs a A hA
    simp only [hA1] at h1
    injection h1 with h12
    injection h12 with h13 h14
    have hoS1 : alookup (heapUpd s arr
        (fun o0 => { o0 with elems := o.elems ++ [x] })).heap arr =
        some { o with elems := o.elems ++ [x] } := by
      rw [heap_heapUpd, alookup_aupdate, if_pos rfl, ho]
      rfl
    have hlog1 : s1.notifyLog = s.notifyLog ++ [A.depId] := by
      rw [← h13]
      simp only [notify]
      rw [hpres.notifyLog]
      rfl
    obtain ⟨o2, ho2, sim⟩ := hpres.heap arr _ hoS1
    have ho2' : alookup s1.heap arr = some o2 := by
      rw [← h13]
      exact ho2
    have hm2 : o2.mark = some (.obs a) := sim.mark a hm
    have hA2 : alookup s1.obs a = some A := by
      rw [← h13]
      exact hA1
    constructor
    · simp only [mutatorF, ho2', nativeApply, hm2] at h2
      simp only [obs_heapUpd, hA2] at h2
      injection h2 with h22
      injection h22 with h23 h24
      rw [← h23]
      simp only [notify]
      rw [notifyLog_heapUpd, hlog1]
      simp
    · intro hox
      have hox1 : observableB (heapUpd s arr
          (fun o0 => { o0 with elems := o.elems ++ [x] })) x = true := by
        rw [observableB_elemsUpd]
        exact hox
      simp only [observeListF] at heq
      split at heq
      · exact absurd heq (by simp)
      · next obx sy hrun =>
        injection heq with heq2
        rw [← h13, hasObsMarkB_notify, ← heq2]
        exact observe_observable_mark fuel _ x false obx sy hox1 hrun

/-- A witness array (dep 5, one element) and a fresh plain object to push. -/
def c4St : St :=
  { heap := [(0, { isArray := true, intercepted := true, mark := some (.obs 0) }),
             (1, { plainObj := true })]
    obs := [(0, ⟨5, 0, 0⟩)]
    deps := [(5, [])]
    nextObsId := 1
    nextDepId := 6 }

/-- Witness for C4: pushing a plain object onto the observed array and
popping it notifies dep 5 exactly twice, and the pushed object ends up
marked. -/
theorem mutator_push_pop_witness :
    (((mutatorF 2 (((mutatorF 2 c4St 0 .push [.ref 1]).getD (c4St, .num 0)).1)
        0 .pop []).getD (c4St, .num 0)).1).notifyLog = c4St.notifyLog ++ [5, 5] ∧
    (observableB c4St (.ref 1) = true →
      hasObsMarkB (((mutatorF 2 c4St 0 .push [.ref 1]).getD (c4St, .num 0)).1)
        (.ref 1) = true) :=
  mutator_push_pop 2 2 c4St 0
    { isArray := true, intercepted := true, mark := some (.obs 0) } 0 ⟨5, 0, 0⟩
    (.ref 1) (by rfl) (by rfl) (by rfl)
    (((mutatorF 2 c4St 0 .push [.ref 1]).getD (c4St, .num 0)).1)
    (((mutatorF 2 c4St 0 .push [.ref 1]).getD (c4St, .num 0)).2)
    (by simp [mutatorF, nativeApply, observeListF, observeFuel, walkF,
              defineReactiveF, c4St, alookup, aupdate, heapUpd, notify])
    (((mutatorF 2 (((mutatorF 2 c4St 0 .push [.ref 1]).getD (c4St, .num 0)).1)
        0 .pop []).getD (c4St, .num 0)).1)
    (((mutatorF 2 (((mutatorF 2 c4St 0 .push [.ref 1]).getD (c4St, .num 0)).1)
        0 .pop []).getD (c4St, .num 0)).2)
    (by simp [mutatorF, nativeApply, observeListF, observeFuel, walkF,
              defineReactiveF, c4St, alookup, aupdate, heapUpd, notify])

/- ================================================================
   Part 12: the `set`-on-array claim (C5).
   ================================================================ -/

/-- Replacing index `k` via `splice(k, 1, v)` on a list that is at least
`k` long: the result keeps every longer length, grows to `k + 1`
otherwise, and holds `v` at index `k`. -/
theorem jsSplice_replace (pl : List JSVal) (k : Nat) (v : JSVal) (hk : k ≤ pl.length) :
    (jsSplice pl (k : Int) 1 [v]).1.length = max pl.length (k + 1) ∧
    (jsSplice pl (k : Int) 1 [v]).1[k]? = some v := by
  simp only [jsSplice]
  rw [show (if (k : Int) < 0 then (max 0 ((pl.length : Int) + (k : Int))).toNat
      else (min (k : Int) (pl.length : Int)).toNat) = k from by
    rw [if_neg (by omega)]
    omega]
  rcases Nat.lt_or_ge k pl.length with hlt | hge
  all_goals
    have hlen2 : (List.take k pl).length = k := by
      simp only [List.length_take]
      omega
  · rw [show (min (max (1 : Int) 0) ((pl.length : Int) - (k : Nat))).toNat = 1 from by
      omega]
    have hlen1 : (List.take k pl ++ [v]).length = k + 1 := by
      simp only [List.length_append, hlen2, List.length_cons, List.length_nil]
    constructor
    · simp only [List.length_append, List.length_take, List.length_drop,
        List.length_cons, List.length_nil]
      omega
    · rw [List.getElem?_append_left (by rw [hlen1]; omega)]
      rw [List.getElem?_append_right (by rw [hlen2])]
      rw [hlen2, Nat.sub_self]
      rfl
  · have hkl : k = pl.length := Nat.le_antisymm hk hge
    rw [show (min (max (1 : Int) 0) ((pl.length : Int) - (k : Nat))).toNat = 0 from by
      omega]
    rw [Nat.add_zero, List.take_of_length_le (by omega), List.drop_eq_nil_of_le (by omega)]
    constructor
    · simp only [List.length_append, List.length_cons, List.length_nil]
      omega
    · rw [List.getElem?_append_left (by
        simp only [List.length_append, List.length_cons, List.length_nil]; omega)]
      rw [List.getElem?_append_right (by omega)]
      rw [show k - pl.length = 0 from by omega]
      rfl

/-- The intercepted `splice(k, 1, v)`: run the native splice, observe the
inserted element, then notify the array Observer's Dep — delivering an
update to each of its current subscribers. -/
theorem mutatorF_splice (fuel : Nat) (s : St) (arr : Nat) (o : HeapObj) (a : Nat)
    (A : Observer) (D : List Nat) (kk : Int) (v : JSVal)
    (ho : alookup s.heap arr = some o) (hm : o.mark = some (.obs a))
    (hA : alookup s.obs a = some A) (hD : alookup s.deps A.depId = some D)
    (sm : St) (rm : MutResult)
    (hres : mutatorF fuel s arr .splice [.prim (.num kk), .prim (.num 1), v] =
      some (sm, rm)) :
    sm.notifyLog = s.notifyLog ++ [A.depId] ∧
    sm.updatedLog = s.updatedLog ++ D ∧
    ∃ o', alookup sm.heap arr = some o' ∧
      o'.elems = (jsSplice o.elems kk 1 [v]).1 := by
  simp only [mutatorF, ho, nativeApply, jsToInt, hm, List.drop] at hres
  split at hres
  · exact absurd hres (by simp)
  · next sy heq =>
    have hpres : Pres (heapUpd s arr
        (fun o0 => { o0 with elems := (jsSplice o.elems kk 1 [v]).1 })) sy :=
      presList fuel (presObs fuel) _ _ _ heq
    have hA1 : alookup sy.obs a = some A := hpres.obs a A hA
    simp only [hA1] at hres
    injection hres with hr2
    injection hr2 with hr3 hr4
    have hD1 : alookup sy.deps A.depId = some D := hpres.deps _ _ hD
    refine ⟨?_, ?_, ?_⟩
    · rw [← hr3]
      simp only [notify]
      rw [hpres.notifyLog]
      rfl
    · rw [← hr3]
      simp only [notify]
      rw [hD1, hpres.updatedLog]
      rfl
    · have hoS : alookup (heapUpd s arr
          (fun o0 => { o0 with elems := (jsSplice o.elems kk 1 [v]).1 })).heap arr =
          some { o with elems := (jsSplice o.elems kk 1 [v]).1 } := by
        rw [heap_heapUpd, alookup_aupdate, if_pos rfl, ho]
        rfl
      obtain ⟨o2, ho2, sim⟩ := hpres.heap arr _ hoS
      refine ⟨o2, by rw [← hr3]; exact ho2, ?_⟩
      rw [sim.elems]

/-- C5: `set` on an observed (intercepted) array with a valid
non-negative integer index key first extends `length` to cover the index,
then routes the write through the intercepted `splice`: the result holds
the value at that index, the length is the old length or `index + 1`,
whichever is larger, and the array Observer's Dep is notified — its prior
subscribers each receive an update. -/
theorem set_array_splice (fuel : Nat) (s : St) (arr : Nat) (o : HeapObj) (a : Nat)
    (A : Observer) (D : List Nat) (k : Nat) (v : JSVal)
    (ho : alookup s.heap arr = some o) (hia : o.isArray = true)
    (hint : o.intercepted = true) (hm : o.mark = some (.obs a))
    (hA : alookup s.obs a = some A) (hD : alookup s.deps A.depId = some D)
    (s' : St) (p : SetPath)
    (h : set fuel s (.ref arr) (.prim (.num (k : Int))) v = some (s', p)) :
    p = SetPath.arrayPath ∧
    s'.notifyLog = s.notifyLog ++ [A.depId] ∧
    s'.updatedLog = s.updatedLog ++ D ∧
    ∃ o', alookup s'.heap arr = some o' ∧
      o'.elems.length = max o.elems.length (k + 1) ∧
      o'.elems[k]? = some v := by
  have hpad : (o.elems ++ List.replicate (max o.elems.length k - o.elems.length)
      (JSVal.prim .undef)).length = max o.elems.length k := by
    simp only [List.length_append, List.length_replicate]
    omega
  simp only [set] at h
  rw [show (s.dev && warnsPrimitive (JSVal.ref arr)) = false from by
    simp [warnsPrimitive]] at h
  rw [if_neg Bool.false_ne_true] at h
  simp only [ho] at h
  rw [show (o.isArray && isValidArrayIndex (.prim (.num (k : Int)))) = true from by
    rw [hia]; simp [isValidArrayIndex]] at h
  rw [if_pos rfl] at h
  rw [show toIdx (.prim (.num (k : Int))) = k from by simp [toIdx]] at h
  rw [hint] at h
  rw [if_pos rfl] at h
  split at h
  · exact absurd h (by simp)
  · next sm rm hres =>
    injection h with h2
    injection h2 with h3 h4
    have hoP : alookup (heapUpd s arr (fun o0 => { o0 with
        elems := o.elems ++ List.replicate (max o.elems.length k - o.elems.length)
          (JSVal.prim .undef) })).heap arr =
        some { o with
               elems := o.elems ++ List.replicate (max o.elems.length k - o.elems.length)
                 (JSVal.prim .undef) } := by
      rw [heap_heapUpd, alookup_aupdate, if_pos rfl, ho]
      rfl
    obtain ⟨hn, hu, o', ho', he⟩ := mutatorF_splice fuel _ arr _ a A D (k : Int) v
      hoP hm hA hD sm rm hres
    have hk' : k ≤ (o.elems ++ List.replicate (max o.elems.length k - o.elems.length)
        (JSVal.prim .undef)).length := by
      rw [hpad]
      omega
    obtain ⟨hl, hg⟩ := jsSplice_replace _ k v hk'
    refine ⟨h4.symm, ?_, ?_, o', ?_, ?_, ?_⟩
    · rw [← h3, hn]
      rfl
    · rw [← h3, hu]
      rfl
    · rw [← h3]
      exact ho'
    · rw [he, hl, hpad]
      omega
    · rw [he]
      exact hg

/-- A length-2 observed array whose Observer Dep (id 5) has one prior
subscriber (77). -/
def c5St : St :=
  { heap := [(0, { isArray := true, intercepted := true, mark := some (.obs 0),
                   elems := [.prim (.num 10), .prim (.num 20)] })]
    obs := [(0, ⟨5, 0, 0⟩)]
    deps := [(5, [77])]
    nextObsId := 1
    nextDepId := 6 }

/-- Witness for C5: `set(plainArray, 5, "x")` on a length-2 observed
array yields length 6 with index 5 holding `"x"`, and notifies the prior
subscriber of the array Observer's Dep. -/
theorem set_array_splice_witness :
    ((set 3 c5St (.ref 0) (.prim (.num ((5 : Nat) : Int))) (.prim (.str "x"))).getD
        (c5St, SetPath.crashed)).2 = SetPath.arrayPath ∧
    (((set 3 c5St (.ref 0) (.prim (.num ((5 : Nat) : Int))) (.prim (.str "x"))).getD
        (c5St, SetPath.crashed)).1).notifyLog = c5St.notifyLog ++ [5] ∧
    (((set 3 c5St (.ref 0) (.prim (.num ((5 : Nat) : Int))) (.prim (.str "x"))).getD
        (c5St, SetPath.crashed)).1).updatedLog = c5St.updatedLog ++ [77] ∧
    ∃ o', alookup ((((set 3 c5St (.ref 0) (.prim (.num ((5 : Nat) : Int)))
        (.prim (.str "x"))).getD (c5St, SetPath.crashed)).1)).heap 0 = some o' ∧
      o'.elems.length = 6 ∧
      o'.elems[5]? = some (.prim (.str "x")) :=
  set_array_splice 3 c5St 0
    { isArray := true, intercepted := true, mark := some (.obs 0),
      elems := [.prim (.num 10), .prim (.num 20)] }
    0 ⟨5, 0, 0⟩ [77] 5 (.prim (.str "x"))
    (by rfl) (by rfl) (by rfl) (by rfl) (by rfl) (by rfl)
    (((set 3 c5St (.ref 0) (.prim (.num ((5 : Nat) : Int))) (.prim (.str "x"))).getD
        (c5St, SetPath.crashed)).1)
    (((set 3 c5St (.ref 0) (.prim (.num ((5 : Nat) : Int))) (.prim (.str "x"))).getD
        (c5St, SetPath.crashed)).2)
    (by simp [set, c5St, warnsPrimitive, isValidArrayIndex, toIdx, mutatorF,
              nativeApply, jsSplice, jsToInt, observeListF, observeFuel,
              alookup, aupdate, heapUpd, notify])

/- ================================================================
   Part 13: the deep-traversal claim (C7).
   ================================================================ -/

theorem alookup_mem {κ α : Type} [DecidableEq κ] {l : List (κ × α)} {k : κ} {a : α}
    (h : alookup l k = some a) : (k, a) ∈ l := by
  induction l with
  | nil => simp [alookup] at h
  | cons p t ih =>
    obtain ⟨j, b⟩ := p
    by_cases hjk : j = k
    · subst hjk
      simp only [alookup, if_pos rfl] at h
      injection h with h2
      subst h2
      exact List.mem_cons_self _ _
    · simp only [alookup, if_neg hjk] at h
      exact List.mem_cons_of_mem _ (ih h)

/-- The dep ids `_traverse` can ever record: one per marked heap object
(`val.__ob__.dep.id`). -/
def markDeps (s : St) : List Nat :=
  s.heap.filterMap (fun p => match p.2.mark with
    | some (.obs i) => some (((alookup s.obs i).map Observer.depId).getD 0)
    | _ => none)

/-- Every heap object carries a valid Observer marker. -/
def allMarkedB (s : St) : Bool :=
  s.heap.all (fun p => match p.2.mark with
    | some (.obs _) => true
    | _ => false)

/-- The termination measure of `_traverse`: how many recordable dep ids
are not yet in the visited set. -/
def mSeen (s : St) (seen : List Nat) : Nat :=
  ((markDeps s).toFinset \ seen.toFinset).card

theorem markDeps_mem (s : St) (n : Nat) (o : HeapObj) (i : Nat)
    (ho : alookup s.heap n = some o) (hm : o.mark = some (.obs i)) :
    ((alookup s.obs i).map Observer.depId).getD 0 ∈ markDeps s := by
  simp only [markDeps, List.mem_filterMap]
  exact ⟨(n, o), alookup_mem ho, by rw [hm]⟩

/-- Recording a fresh dep id strictly shrinks the measure. -/
theorem mSeen_insert_lt (s : St) (seen : List Nat) (d : Nat)
    (hd : d ∈ markDeps s) (hdn : d ∉ seen) :
    mSeen s (seen ++ [d]) < mSeen s seen := by
  have hsub : (markDeps s).toFinset \ (seen ++ [d]).toFinset =
      ((markDeps s).toFinset \ seen.toFinset).erase d := by
    ext x
    simp only [Finset.mem_sdiff, List.mem_toFinset, List.mem_append,
      List.mem_singleton, Finset.mem_erase]
    constructor
    · rintro ⟨hx, hns⟩
      exact ⟨fun he => hns (Or.inr he), hx, fun hs => hns (Or.inl hs)⟩
    · rintro ⟨hne, hx, hns⟩
      exact ⟨hx, fun hh => hh.elim hns hne⟩
  have hdm : d ∈ (markDeps s).toFinset \ seen.toFinset := by
    simp only [Finset.mem_sdiff, List.mem_toFinset]
    exact ⟨hd, hdn⟩
  rw [mSeen, mSeen, hsub, Finset.card_erase_of_mem hdm]
  have hpos : 0 < ((markDeps s).toFinset \ seen.toFinset).card :=
    Finset.card_pos.mpr ⟨d, hdm⟩
  omega

/-- Growing the visited set never grows the measure. -/
theorem mSeen_mono (s : St) (seen : List Nat) (t : List Nat) :
    mSeen s (seen ++ t) ≤ mSeen s seen := by
  apply Finset.card_le_card
  intro x hx
  simp only [Finset.mem_sdiff, List.mem_toFinset, List.mem_append] at hx ⊢
  exact ⟨hx.1, fun hs => hx.2 (Or.inl hs)⟩

/-- What one `_traverse` call does to the visited set: it only appends,
appends only recordable dep ids, and never appends a duplicate. -/
def TravM (s : St) (seen out : List Nat) : Prop :=
  ∃ t, out = seen ++ t ∧ (∀ x ∈ t, x ∈ markDeps s) ∧ (seen.Nodup → out.Nodup)

theorem TravM.triv (s : St) (seen : List Nat) : TravM s seen seen :=
  ⟨[], (List.append_nil seen).symm, by simp, fun h => h⟩

theorem TravM.tcomp {s : St} {seen mid out : List Nat}
    (h1 : TravM s seen mid) (h2 : TravM s mid out) : TravM s seen out := by
  obtain ⟨t1, rfl, hd1, hn1⟩ := h1
  obtain ⟨t2, rfl, hd2, hn2⟩ := h2
  refine ⟨t1 ++ t2, List.append_assoc seen t1 t2, fun x hx => ?_,
    fun h => hn2 (hn1 h)⟩
  rcases List.mem_append.mp hx with hx | hx
  · exact hd1 x hx
  · exact hd2 x hx

theorem TravM.push (s : St) (seen : List Nat) (d : Nat)
    (hd : d ∈ markDeps s) (hdn : d ∉ seen) : TravM s seen (seen ++ [d]) := by
  refine ⟨[d], rfl, by simpa using hd, fun h => ?_⟩
  rw [List.nodup_append]
  refine ⟨h, List.nodup_singleton d, ?_⟩
  intro x hx hxd
  rw [List.mem_singleton] at hxd
  subst hxd
  exact hdn hx

/-- The child fold only appends recordable dep ids, without duplicates. -/
theorem travMList (s : St) (fuel : Nat)
    (hP : ∀ v seen out, traverseF fuel s v seen = some out → TravM s seen out) :
    ∀ vs seen out, traverseListF fuel s vs seen = some out → TravM s seen out := by
  intro vs
  induction vs with
  | nil =>
    intro seen out h
    simp only [traverseListF] at h
    injection h with h2
    subst h2
    exact TravM.triv s seen
  | cons v vs ih =>
    intro seen out h
    simp only [traverseListF] at h
    cases hr : traverseF fuel s v seen with
    | none => simp only [hr] at h; exact Option.noConfusion h
    | some mid =>
      simp only [hr] at h
      exact (hP v seen mid hr).tcomp (ih mid out h)

/-- Per-container recursion version of `travMList`. -/
theorem travMChildren (s : St) (fuel : Nat)
    (hL : ∀ vs seen out, traverseListF fuel s vs seen = some out → TravM s seen out) :
    ∀ o seen out, traverseChildrenF fuel s o seen = some out → TravM s seen out := by
  intro o seen out h
  simp only [traverseChildrenF] at h
  split at h
  · exact hL _ seen out h
  · exact hL _ seen out h

/-- `_traverse` only appends recordable dep ids to `seen`, each at most
once (no double registration of the same Dependency Set). -/
theorem travMF (s : St) : ∀ fuel v seen out,
    traverseF fuel s v seen = some out → TravM s seen out := by
  intro fuel
  induction fuel with
  | zero =>
    intro v seen out h
    simp only [traverseF] at h
    exact Option.noConfusion h
  | succ fuel ih =>
    intro v seen out h
    cases v with
    | prim p =>
      simp only [traverseF] at h
      injection h with h2
      subst h2
      exact TravM.triv s seen
    | ref n =>
      simp only [traverseF] at h
      cases ho : alookup s.heap n with
      | none =>
        simp only [ho] at h
        injection h with h2
        subst h2
        exact TravM.triv s seen
      | some o =>
        simp only [ho] at h
        by_cases hfz : (o.frozen || o.isVNode) = true
        · rw [if_pos hfz] at h
          injection h with h2
          subst h2
          exact TravM.triv s seen
        · rw [if_neg hfz] at h
          cases hm : o.mark with
          | some m =>
            cases m with
            | obs i =>
              simp only [hm] at h
              by_cases hd : ((alookup s.obs i).map Observer.depId).getD 0 ∈ seen
              · rw [if_pos hd] at h
                injection h with h2
                subst h2
                exact TravM.triv s seen
              · rw [if_neg hd] at h
                exact (TravM.push s seen _ (markDeps_mem s n o i ho hm) hd).tcomp
                  (travMChildren s fuel (travMList s fuel ih) o _ out h)
            | raw w =>
              simp only [hm] at h
              by_cases ht : jsTruthy w = true
              · rw [if_pos ht] at h
                exact Option.noConfusion h
              · rw [if_neg ht] at h
                exact travMChildren s fuel (travMList s fuel ih) o seen out h
          | none =>
            simp only [hm] at h
            exact travMChildren s fuel (travMList s fuel ih) o seen out h

/-- The child fold terminates when each single call does and the measure
bound holds. -/
theorem travTermList (s : St) (fuel : Nat)
    (hP : ∀ v seen, mSeen s seen + 2 ≤ fuel →
      ∃ out, traverseF fuel s v seen = some out) :
    ∀ vs seen, mSeen s seen + 2 ≤ fuel →
      ∃ out, traverseListF fuel s vs seen = some out := by
  intro vs
  induction vs with
  | nil =>
    intro seen hb
    exact ⟨seen, by simp [traverseListF]⟩
  | cons v vs ih =>
    intro seen hb
    obtain ⟨mid, hmid⟩ := hP v seen hb
    obtain ⟨t, rfl, _, _⟩ := travMF s fuel v seen mid hmid
    obtain ⟨out, hout⟩ := ih (seen ++ t)
      (by have := mSeen_mono s seen t; omega)
    refine ⟨out, ?_⟩
    simp only [traverseListF, hmid]
    exact hout

/-- Main termination lemma: on a heap all of whose objects carry valid
Observer markers, `_traverse` succeeds whenever the fuel exceeds the
number of not-yet-visited recordable dep ids — the visited-set check
stops every cycle. -/
theorem travTermF (s : St) (hall : allMarkedB s = true) :
    ∀ fuel v seen, mSeen s seen + 2 ≤ fuel →
      ∃ out, traverseF fuel s v seen = some out := by
  intro fuel
  induction fuel with
  | zero =>
    intro v seen hb
    exact absurd hb (by omega)
  | succ fuel ih =>
    intro v seen hb
    cases v with
    | prim p => exact ⟨seen, by simp [traverseF]⟩
    | ref n =>
      cases ho : alookup s.heap n with
      | none => exact ⟨seen, by simp [traverseF, ho]⟩
      | some o =>
        by_cases hfz : (o.frozen || o.isVNode) = true
        · refine ⟨seen, ?_⟩
          simp only [traverseF, ho]
          rw [if_pos hfz]
        · have hmark : ∃ i, o.mark = some (.obs i) := by
            have hx := (List.all_eq_true.mp hall) (n, o) (alookup_mem ho)
            cases hm : o.mark with
            | none => rw [hm] at hx; exact Bool.noConfusion hx
            | some m =>
              cases m with
              | obs i => exact ⟨i, hm ▸ rfl⟩
              | raw w => rw [hm] at hx; exact Bool.noConfusion hx
          obtain ⟨i, hm⟩ := hmark
          by_cases hdin : ((alookup s.obs i).map Observer.depId).getD 0 ∈ seen
          · refine ⟨seen, ?_⟩
            simp only [traverseF, ho, hm]
            rw [if_neg hfz, if_pos hdin]
          · have hb2 : mSeen s
                (seen ++ [((alookup s.obs i).map Observer.depId).getD 0]) + 2 ≤ fuel := by
              have := mSeen_insert_lt s seen _ (markDeps_mem s n o i ho hm) hdin
              omega
            have hch : ∃ out, traverseChildrenF fuel s o
                (seen ++ [((alookup s.obs i).map Observer.depId).getD 0]) = some out := by
              simp only [traverseChildrenF]
              split
              · exact travTermList s fuel ih _ _ hb2
              · exact travTermList s fuel ih _ _ hb2
            obtain ⟨out, hout⟩ := hch
            refine ⟨out, ?_⟩
            simp only [traverseF, ho, hm]
            rw [if_neg hfz, if_neg hdin]
            exact hout

/-- C7: on any structure — cyclic or self-referential included — whose
heap objects all carry valid Observer markers, `traverse` terminates
(given fuel beyond the number of recordable dep ids), the dep ids it
records during the call are pairwise distinct (each encountered
Observer's Dependency Set is registered at most once per call), and the
module-global visited set is cleared after the top-level call. -/
theorem traverse_cyclic_ok (s : St) (v : JSVal) (fuel : Nat)
    (hall : allMarkedB s = true)
    (hfuel : (markDeps s).toFinset.card + 2 ≤ fuel) :
    ∃ out, traverse fuel s v = some (out, []) ∧ out.Nodup := by
  have hb : mSeen s [] + 2 ≤ fuel := by
    simp only [mSeen, List.toFinset_nil, Finset.sdiff_empty]
    exact hfuel
  obtain ⟨out, hout⟩ := travTermF s hall fuel v [] hb
  obtain ⟨t, ht, _, hnd⟩ := travMF s fuel v [] out hout
  refine ⟨out, ?_, hnd List.nodup_nil⟩
  simp only [traverse, hout]

/-- A self-referential structure: object 0's field `"self"` points back
at object 0, and the object carries observer 0 (dep id 1). -/
def c7St : St :=
  { heap := [(0, { plainObj := true, fields := [("self", .ref 0)],
                   mark := some (.obs 0) })]
    obs := [(0, ⟨1, 0, 0⟩)]
    deps := [(1, [])]
    nextObsId := 1
    nextDepId := 2 }

/-- Witness for C7: traversing the self-referential object terminates
with a duplicate-free registration list and an empty global visited set. -/
theorem traverse_cyclic_ok_witness :
    ∃ out, traverse 3 c7St (.ref 0) = some (out, []) ∧ out.Nodup :=
  traverse_cyclic_ok c7St (.ref 0) 3 (by rfl) (by decide)

end VueCore
